import Mathlib

/-!
Verification of the Minesweeper board-generation core.

The repository is a Bevy Minesweeper game. Its algorithmic core is the
board generator: a rectangular tile grid, random mine placement, and
neighbor-mine counting, plus the layout arithmetic (tile size, board
size, board anchor) in `board_plugin/src/lib.rs`.

Embedding conventions:
* `f32` values are modelled as `ℚ` (the layout arithmetic uses only
  division, `min` and `clamp`, and no claim depends on rounding).
* Rust's `f32::clamp` panics when `min > max`; a panicking computation
  is modelled as `Option` with `none` for the panic.
* The random source of mine placement is modelled explicitly, as a
  shuffled enumeration of the full coordinate space from which the
  first `count` coordinates are taken (the shuffle-based sampling the
  spec prescribes); theorems quantify over every permutation.
* The `resources` module (`Tile`, `TileMap`, `BoardOptions`, ...) is
  declared by the crate but its file is not part of the sources at
  hand; those definitions are modelled from the spec, as marked.
-/

/-- Modelled from the spec: the `Tile` enum of the missing `resources::tile`
module (constructor names as used by the `match` in `spawn_tiles`,
`lib.rs` lines 118-145). A cell is empty, a bomb ("mine"), or records the
number of neighboring bombs. -/
inductive Tile where
  | Empty : Tile
  | Bomb : Tile
  | BombNeighbor : Nat → Tile
deriving DecidableEq

/-- Modelled from the spec: the tile grid of the missing
`resources::tile_map` module, a 2D ordered structure of tiles addressed by
`(x, y)` with `0 ≤ x < width`, `0 ≤ y < height`, stored as rows. -/
structure TileMap where
  width : Nat
  height : Nat
  map : List (List Tile)
deriving DecidableEq

/-- Build a `width × height` grid of rows, row `y` holding the tiles
`f x y` for `x = 0 .. width-1` (row-major generation). -/
def mkGrid (w h : Nat) (f : Nat → Nat → Tile) : List (List Tile) :=
  (List.range h).map fun y => (List.range w).map fun x => f x y

/-- Tile stored at `(x, y)`; out-of-bounds reads default to `Tile.Empty`
(the spec makes out-of-bounds access a contract violation, and every
use below is pre-filtered to valid bounds). -/
def tileAt (tm : TileMap) (x y : Nat) : Tile :=
  (tm.map.getD y []).getD x Tile.Empty

/-- Modelled from the spec: `create_empty(width, height)` of the missing
`resources::tile_map` module (`TileMap::empty` at `lib.rs` line 163) — a
grid of all `Empty` tiles. -/
def TileMap.empty (w h : Nat) : TileMap :=
  ⟨w, h, mkGrid w h fun _ _ => Tile.Empty⟩

/-- The eight neighbor offsets, in the row-major order the spec fixes:
(-1,-1),(0,-1),(1,-1),(-1,0),(1,0),(-1,1),(0,1),(1,1). -/
def SQUARE_COORDINATES : List (Int × Int) :=
  [(-1, -1), (0, -1), (1, -1), (-1, 0), (1, 0), (-1, 1), (0, 1), (1, 1)]

/-- Modelled from the spec: `neighbor_coordinates(x, y)` of the missing
`resources::tile_map` module — the eight offsets applied to `(x, y)` and
filtered to in-bounds coordinates. -/
def neighbor_coordinates (w h x y : Nat) : List (Nat × Nat) :=
  SQUARE_COORDINATES.filterMap fun d =>
    let nx : Int := (x : Int) + d.1
    let ny : Int := (y : Int) + d.2
    if 0 ≤ nx ∧ nx < (w : Int) ∧ 0 ≤ ny ∧ ny < (h : Int) then
      some (nx.toNat, ny.toNat)
    else
      none

/-- The full coordinate space of a `w × h` grid, enumerated row-major
(all pairs `(x, y)` with `x < w`, `y < h`). -/
def allCoords (w h : Nat) : List (Nat × Nat) :=
  ((List.range h).map fun y => (List.range w).map fun x => (x, y)).flatten

/-- Modelled from the spec: step 3 of `set_bombs` — mark each selected
cell as a bomb, leaving the other cells unchanged. -/
def place_bombs (tm : TileMap) (bombs : List (Nat × Nat)) : TileMap :=
  ⟨tm.width, tm.height,
    mkGrid tm.width tm.height fun x y =>
      if (x, y) ∈ bombs then Tile.Bomb else tileAt tm x y⟩

/-- Modelled from the spec: the live neighbor-mine tally of cell
`(x, y)` — the number of coordinates in its neighbor set holding a bomb. -/
def bomb_tally (tm : TileMap) (x y : Nat) : Nat :=
  (neighbor_coordinates tm.width tm.height x y).countP fun c =>
    decide (tileAt tm c.1 c.2 = Tile.Bomb)

/-- Modelled from the spec: step 4 of `set_bombs` — every non-bomb cell
with a positive neighbor-mine tally becomes `BombNeighbor(tally)`, the
rest stay as they are (`Empty`). -/
def set_neighbors (tm : TileMap) : TileMap :=
  ⟨tm.width, tm.height,
    mkGrid tm.width tm.height fun x y =>
      match tileAt tm x y with
      | Tile.Bomb => Tile.Bomb
      | _ =>
        let n := bomb_tally tm x y
        if n = 0 then Tile.Empty else Tile.BombNeighbor n⟩

/-- Modelled from the spec: the error taxonomy of board generation. -/
inductive TileMapError where
  | InvalidBombCount : TileMapError
deriving DecidableEq

/-- Modelled from the spec: `set_bombs(count)` of the missing
`resources::tile_map` module (`lib.rs` line 164). Validates
`0 ≤ count ≤ width*height` before any sampling (failing with
`InvalidBombCount`), then takes the first `count` cells of a shuffled
enumeration `shuffled` of the coordinate space (the spec's
shuffle-based sampling without replacement; randomness is the choice of
permutation), marks them as bombs, and derives all neighbor counts. -/
def set_bombs (tm : TileMap) (count : Nat) (shuffled : List (Nat × Nat)) :
    Except TileMapError TileMap :=
  if count ≤ tm.width * tm.height then
    Except.ok (set_neighbors (place_bombs tm (shuffled.take count)))
  else
    Except.error TileMapError.InvalidBombCount

instance exceptDecEq {ε α : Type} [DecidableEq ε] [DecidableEq α] :
    DecidableEq (Except ε α) := fun a b =>
  match a, b with
  | Except.error e, Except.error f =>
    if h : e = f then isTrue (by rw [h]) else isFalse (by intro hc; injection hc; exact h ‹e = f›)
  | Except.error _, Except.ok _ => isFalse (by intro hc; exact Except.noConfusion hc)
  | Except.ok x, Except.ok y =>
    if h : x = y then isTrue (by rw [h]) else isFalse (by intro hc; injection hc; exact h ‹x = y›)
  | Except.ok _, Except.error _ => isFalse (by intro hc; exact Except.noConfusion hc)

/-- The neighbor-mine tally of a cell of a freshly generated board, as a
function of the selected bomb coordinates. -/
def memTally (w h x y : Nat) (B : List (Nat × Nat)) : Nat :=
  (neighbor_coordinates w h x y).countP fun c => decide (c ∈ B)

/-- Total number of bomb cells stored in the grid. -/
def bombCount (tm : TileMap) : Nat :=
  tm.map.flatten.countP fun t => decide (t = Tile.Bomb)

/-- The two window fields `create_board` reads (`window.width`,
`window.height`), `f32` modelled as `ℚ`. -/
structure WindowDescriptor where
  width : ℚ
  height : ℚ
deriving DecidableEq

/-- Rust's `f32::clamp(lo, hi)`: asserts `lo ≤ hi` (panic modelled as
`none`), then moves the value into `[lo, hi]`. -/
def f32clamp (x lo hi : ℚ) : Option ℚ :=
  if lo ≤ hi then
    some (if x < lo then lo else if hi < x then hi else x)
  else
    none

/-- `adaptative_tile_size` (`lib.rs` lines 74-83): the largest tile edge
fitting the grid in the window on both axes, clamped to `[min, max]`. -/
def adaptative_tile_size (window : WindowDescriptor) (mm : ℚ × ℚ)
    (wh : Nat × Nat) : Option ℚ :=
  let max_width := window.width / (wh.1 : ℚ)
  let max_height := window.height / (wh.2 : ℚ)
  f32clamp (min max_width max_height) mm.1 mm.2

/-- Modelled from the spec: the tile-size policy of the missing
`resources` module, `Fixed(value)` or `Adaptive(min, max)` (matched at
`lib.rs` lines 172-177; the fixed value is converted with `as f32`). -/
inductive TileSize where
  | Fixed : Nat → TileSize
  | Adaptive : ℚ → ℚ → TileSize
deriving DecidableEq

/-- A world-space point, as Bevy's `Vec3` with `f32` modelled as `ℚ`. -/
abbrev Vec3 := ℚ × ℚ × ℚ

/-- Modelled from the spec: the position policy of the missing
`resources` module, `Centered(offset)` or `Custom(p)` (matched at
`lib.rs` lines 187-192). -/
inductive BoardPosition where
  | Centered : Vec3 → BoardPosition
  | Custom : Vec3 → BoardPosition
deriving DecidableEq

/-- Modelled from the spec: the `BoardOptions` configuration of the
missing `resources` module (the fields `create_board` reads). -/
structure BoardOptions where
  map_size : Nat × Nat
  bomb_count : Nat
  tile_size : TileSize
  tile_padding : ℚ
  position : BoardPosition
deriving DecidableEq

/-- Board size deduced from the grid dimensions and the tile size
(`lib.rs` lines 180-183). -/
def board_size (w h : Nat) (tile_size : ℚ) : ℚ × ℚ :=
  ((w : ℚ) * tile_size, (h : ℚ) * tile_size)

/-- Board anchor position (`lib.rs` lines 187-192): centered (plus
offset) or a custom point. -/
def board_position (bs : ℚ × ℚ) (pos : BoardPosition) : Vec3 :=
  match pos with
  | BoardPosition.Centered offset => (-(bs.1 / 2), -(bs.2 / 2), (0 : ℚ)) + offset
  | BoardPosition.Custom p => p

/-- The three derived layout values. -/
structure BoardLayout where
  tile_size : ℚ
  board_size : ℚ × ℚ
  board_position : Vec3
deriving DecidableEq

/-- The layout computation of `create_board` (`lib.rs` lines 170-192):
tile size from the sizing policy (`none` when the adaptive clamp
panics), then board size, then anchor position. -/
def compute_layout (win : WindowDescriptor) (opts : BoardOptions)
    (w h : Nat) : Option BoardLayout :=
  match opts.tile_size with
  | TileSize.Fixed v =>
    some ⟨(v : ℚ), board_size w h (v : ℚ),
      board_position (board_size w h (v : ℚ)) opts.position⟩
  | TileSize.Adaptive lo hi =>
    (adaptative_tile_size win (lo, hi) (w, h)).map fun ts =>
      ⟨ts, board_size w h ts, board_position (board_size w h ts) opts.position⟩

/-- `create_board` (`lib.rs` lines 150-224), restricted to its
algorithmic content: build the empty grid from the options, place the
bombs, and — only when a window descriptor is present — compute the
spatial layout. The result pairs the tile map with `none` when no
window was available, or with the computed layout otherwise. -/
def create_board (opts : BoardOptions) (window : Option WindowDescriptor)
    (shuffled : List (Nat × Nat)) :
    Except TileMapError (TileMap × Option (Option BoardLayout)) :=
  match set_bombs (TileMap.empty opts.map_size.1 opts.map_size.2)
      opts.bomb_count shuffled with
  | Except.error e => Except.error e
  | Except.ok tm =>
    Except.ok (tm, window.map fun win => compute_layout win opts tm.width tm.height)

theorem tileAt_mkGrid {w h : Nat} (f : Nat → Nat → Tile) {x y : Nat}
    (hx : x < w) (hy : y < h) :
    tileAt ⟨w, h, mkGrid w h f⟩ x y = f x y := by
  simp [tileAt, mkGrid, List.getD_eq_getElem?_getD, List.getElem?_map,
    List.getElem?_range, hx, hy]

theorem mem_allCoords {w h : Nat} {c : Nat × Nat} :
    c ∈ allCoords w h ↔ c.1 < w ∧ c.2 < h := by
  obtain ⟨x, y⟩ := c
  simp only [allCoords, List.mem_flatten, List.mem_map, List.mem_range]
  constructor
  · rintro ⟨l, ⟨y1, hy1, rfl⟩, hm⟩
    simp only [List.mem_map, List.mem_range, Prod.mk.injEq] at hm
    obtain ⟨x1, hx1, rfl, rfl⟩ := hm
    exact ⟨hx1, hy1⟩
  · rintro ⟨hx, hy⟩
    refine ⟨(List.range w).map fun x => (x, y), ⟨y, hy, rfl⟩, ?_⟩
    simp only [List.mem_map, List.mem_range]
    exact ⟨x, hx, rfl⟩

theorem nodup_allCoords (w h : Nat) : (allCoords w h).Nodup := by
  rw [allCoords, List.nodup_flatten]
  constructor
  · rintro l hl
    simp only [List.mem_map, List.mem_range] at hl
    obtain ⟨y, hy, rfl⟩ := hl
    exact List.Nodup.map (fun a b hab => by injection hab) (List.nodup_range w)
  · rw [List.pairwise_map]
    refine List.Pairwise.imp ?_ (List.nodup_range h)
    intro y1 y2 hne
    rw [List.disjoint_left]
    rintro c hc1 hc2
    simp only [List.mem_map, List.mem_range] at hc1 hc2
    obtain ⟨a, _, rfl⟩ := hc1
    obtain ⟨b, _, hab⟩ := hc2
    injection hab with h1 h2
    exact hne h2.symm

theorem length_allCoords (w h : Nat) : (allCoords w h).length = w * h := by
  simp [allCoords, List.length_flatten, List.map_map, Function.comp_def, List.map_const']
  exact Nat.mul_comm h w

theorem countP_flatten_mkGrid (w h : Nat) (f : Nat → Nat → Tile) (p : Tile → Bool) :
    (mkGrid w h f).flatten.countP p = (allCoords w h).countP fun c => p (f c.1 c.2) := by
  simp [mkGrid, allCoords, List.countP_flatten, List.map_map, Function.comp_def,
    List.countP_map]

theorem countP_mem_allCoords {w h : Nat} {B : List (Nat × Nat)} (hB : B.Nodup)
    (hsub : ∀ c ∈ B, c ∈ allCoords w h) :
    ((allCoords w h).countP fun c => decide (c ∈ B)) = B.length := by
  rw [List.countP_eq_length_filter]
  refine List.Perm.length_eq ?_
  rw [List.perm_ext_iff_of_nodup (List.Nodup.filter _ (nodup_allCoords w h)) hB]
  intro c
  simp only [List.mem_filter, decide_eq_true_eq]
  exact ⟨fun hc => hc.2, fun hc => ⟨hsub c hc, hc⟩⟩

theorem mem_neighbor_coordinates_bounds {w h x y : Nat} {c : Nat × Nat}
    (hc : c ∈ neighbor_coordinates w h x y) : c.1 < w ∧ c.2 < h := by
  simp only [neighbor_coordinates, List.mem_filterMap] at hc
  obtain ⟨d, hd, hfd⟩ := hc
  split_ifs at hfd with hcond
  injection hfd with hfd
  subst hfd
  simp only
  omega

theorem self_not_mem_neighbor_coordinates (w h x y : Nat) :
    (x, y) ∉ neighbor_coordinates w h x y := by
  intro hmem
  simp only [neighbor_coordinates, SQUARE_COORDINATES, List.mem_filterMap,
    List.mem_cons, List.not_mem_nil, or_false] at hmem
  obtain ⟨d, hd, hfd⟩ := hmem
  rcases hd with rfl | rfl | rfl | rfl | rfl | rfl | rfl | rfl
  all_goals dsimp only at hfd
  all_goals split_ifs at hfd with hcond
  all_goals (injection hfd with hfd; rw [Prod.mk.injEq] at hfd; omega)

theorem length_neighbor_coordinates_le (w h x y : Nat) :
    (neighbor_coordinates w h x y).length ≤ 8 :=
  (List.length_filterMap_le _ _).trans (by simp [SQUARE_COORDINATES])

theorem length_filterMap_eq_countP {A B : Type} (f : A → Option B) (l : List A) :
    (l.filterMap f).length = l.countP fun a => (f a).isSome := by
  induction l with
  | nil => rfl
  | cons a l ih =>
    rw [List.filterMap_cons, List.countP_cons]
    cases hfa : f a <;> simp [hfa, ih, Nat.add_comm]

set_option maxHeartbeats 1000000 in
theorem length_neighbor_coordinates {w h x y : Nat} (hx : x < w) (hy : y < h) :
    (neighbor_coordinates w h x y).length =
      ((if 0 < x then 1 else 0) + 1 + (if x + 1 < w then 1 else 0)) *
        ((if 0 < y then 1 else 0) + 1 + (if y + 1 < h then 1 else 0)) - 1 := by
  have e1 : ((0:Int) ≤ (x:Int) + -1 ∧ (x:Int) + -1 < (w:Int) ∧
      (0:Int) ≤ (y:Int) + -1 ∧ (y:Int) + -1 < (h:Int)) ↔ (0 < x ∧ 0 < y) := by omega
  have e2 : ((0:Int) ≤ (x:Int) + 0 ∧ (x:Int) + 0 < (w:Int) ∧
      (0:Int) ≤ (y:Int) + -1 ∧ (y:Int) + -1 < (h:Int)) ↔ (0 < y) := by omega
  have e3 : ((0:Int) ≤ (x:Int) + 1 ∧ (x:Int) + 1 < (w:Int) ∧
      (0:Int) ≤ (y:Int) + -1 ∧ (y:Int) + -1 < (h:Int)) ↔ (x + 1 < w ∧ 0 < y) := by omega
  have e4 : ((0:Int) ≤ (x:Int) + -1 ∧ (x:Int) + -1 < (w:Int) ∧
      (0:Int) ≤ (y:Int) + 0 ∧ (y:Int) + 0 < (h:Int)) ↔ (0 < x) := by omega
  have e5 : ((0:Int) ≤ (x:Int) + 1 ∧ (x:Int) + 1 < (w:Int) ∧
      (0:Int) ≤ (y:Int) + 0 ∧ (y:Int) + 0 < (h:Int)) ↔ (x + 1 < w) := by omega
  have e6 : ((0:Int) ≤ (x:Int) + -1 ∧ (x:Int) + -1 < (w:Int) ∧
      (0:Int) ≤ (y:Int) + 1 ∧ (y:Int) + 1 < (h:Int)) ↔ (0 < x ∧ y + 1 < h) := by omega
  have e7 : ((0:Int) ≤ (x:Int) + 0 ∧ (x:Int) + 0 < (w:Int) ∧
      (0:Int) ≤ (y:Int) + 1 ∧ (y:Int) + 1 < (h:Int)) ↔ (y + 1 < h) := by omega
  have e8 : ((0:Int) ≤ (x:Int) + 1 ∧ (x:Int) + 1 < (w:Int) ∧
      (0:Int) ≤ (y:Int) + 1 ∧ (y:Int) + 1 < (h:Int)) ↔ (x + 1 < w ∧ y + 1 < h) := by omega
  rw [neighbor_coordinates, length_filterMap_eq_countP]
  simp only [SQUARE_COORDINATES, List.countP_cons, List.countP_nil]
  simp only [e1, e2, e3, e4, e5, e6, e7, e8, apply_ite Option.isSome,
    Option.isSome_some, Option.isSome_none]
  by_cases ha : 0 < x <;> by_cases hb : x + 1 < w <;>
    by_cases hc : 0 < y <;> by_cases hd : y + 1 < h <;>
    simp [ha, hb, hc, hd]

theorem tileAt_empty {w h x y : Nat} (hx : x < w) (hy : y < h) :
    tileAt (TileMap.empty w h) x y = Tile.Empty :=
  tileAt_mkGrid _ hx hy

theorem tileAt_place_bombs {tm : TileMap} {B : List (Nat × Nat)} {x y : Nat}
    (hx : x < tm.width) (hy : y < tm.height) :
    tileAt (place_bombs tm B) x y =
      if (x, y) ∈ B then Tile.Bomb else tileAt tm x y :=
  tileAt_mkGrid _ hx hy

theorem tileAt_set_neighbors {tm : TileMap} {x y : Nat}
    (hx : x < tm.width) (hy : y < tm.height) :
    tileAt (set_neighbors tm) x y =
      match tileAt tm x y with
      | Tile.Bomb => Tile.Bomb
      | _ =>
        if bomb_tally tm x y = 0 then Tile.Empty
        else Tile.BombNeighbor (bomb_tally tm x y) :=
  tileAt_mkGrid _ hx hy

theorem set_bombs_eq_ok {tm : TileMap} {count : Nat}
    {shuffled : List (Nat × Nat)} {g : TileMap} :
    set_bombs tm count shuffled = Except.ok g ↔
      count ≤ tm.width * tm.height ∧
        g = set_neighbors (place_bombs tm (shuffled.take count)) := by
  rw [set_bombs]
  split_ifs with hc
  · simp [hc, eq_comm]
  · simp [hc]

theorem tileAt_generated {w h count : Nat} {shuffled : List (Nat × Nat)}
    {g : TileMap}
    (hok : set_bombs (TileMap.empty w h) count shuffled = Except.ok g)
    {x y : Nat} (hx : x < w) (hy : y < h) :
    tileAt g x y =
      if (x, y) ∈ shuffled.take count then Tile.Bomb
      else if memTally w h x y (shuffled.take count) = 0 then Tile.Empty
      else Tile.BombNeighbor (memTally w h x y (shuffled.take count)) := by
  obtain ⟨hc, rfl⟩ := set_bombs_eq_ok.mp hok
  set B := shuffled.take count with hB
  have hwidth : (place_bombs (TileMap.empty w h) B).width = w := rfl
  have hheight : (place_bombs (TileMap.empty w h) B).height = h := rfl
  rw [tileAt_set_neighbors (hwidth ▸ hx) (hheight ▸ hy)]
  have htally : bomb_tally (place_bombs (TileMap.empty w h) B) x y = memTally w h x y B := by
    rw [bomb_tally, memTally, hwidth, hheight]
    refine List.countP_congr ?_
    intro c hcmem
    obtain ⟨hc1, hc2⟩ := mem_neighbor_coordinates_bounds hcmem
    rw [tileAt_place_bombs (hwidth ▸ hc1) (hheight ▸ hc2)]
    by_cases hmem : c ∈ B
    · simp [hmem]
    · simp [hmem, tileAt_empty hc1 hc2]
  rw [tileAt_place_bombs (hwidth ▸ hx) (hheight ▸ hy)]
  by_cases hmem : (x, y) ∈ B
  · simp [hmem]
  · rw [if_neg hmem, tileAt_empty hx hy]
    simp [htally, hmem]

theorem bombCount_mkGrid (w h : Nat) (f : Nat → Nat → Tile) :
    bombCount ⟨w, h, mkGrid w h f⟩ =
      (allCoords w h).countP fun c =>
        decide (tileAt ⟨w, h, mkGrid w h f⟩ c.1 c.2 = Tile.Bomb) := by
  rw [bombCount]
  rw [show (TileMap.mk w h (mkGrid w h f)).map = mkGrid w h f from rfl]
  rw [countP_flatten_mkGrid]
  refine List.countP_congr ?_
  intro c hcmem
  obtain ⟨h1, h2⟩ := mem_allCoords.mp hcmem
  rw [tileAt_mkGrid f h1 h2]

theorem bombCount_generated {w h count : Nat} {shuffled : List (Nat × Nat)}
    {g : TileMap}
    (hok : set_bombs (TileMap.empty w h) count shuffled = Except.ok g)
    (hperm : shuffled.Perm (allCoords w h)) :
    bombCount g = count := by
  obtain ⟨hc, hg⟩ := set_bombs_eq_ok.mp hok
  have hcount : count ≤ w * h := hc
  set B := shuffled.take count with hB
  have hnodupS : shuffled.Nodup := (hperm.nodup_iff).mpr (nodup_allCoords w h)
  have hnodupB : B.Nodup := (List.take_sublist count shuffled).nodup hnodupS
  have hsubB : ∀ c ∈ B, c ∈ allCoords w h := fun c hc1 =>
    (hperm.mem_iff).mp (List.mem_of_mem_take hc1)
  have hlenB : B.length = count := by
    rw [hB, List.length_take, hperm.length_eq, length_allCoords]
    exact Nat.min_eq_left hcount
  have h1 : bombCount g =
      (allCoords w h).countP fun c => decide (tileAt g c.1 c.2 = Tile.Bomb) := by
    rw [hg]
    exact bombCount_mkGrid w h _
  rw [h1]
  have h2 : ((allCoords w h).countP fun c => decide (tileAt g c.1 c.2 = Tile.Bomb)) =
      (allCoords w h).countP fun c => decide (c ∈ B) := by
    refine List.countP_congr ?_
    intro c hcmem
    obtain ⟨hc1, hc2⟩ := mem_allCoords.mp hcmem
    rw [tileAt_generated hok hc1 hc2]
    by_cases hmem : (c.1, c.2) ∈ B
    · simp [hmem]
    · rw [if_neg hmem]
      split_ifs with h0 <;> simp [hmem]
  rw [h2, countP_mem_allCoords hnodupB hsubB, hlenB]

theorem bomb_tally_generated {w h count : Nat} {shuffled : List (Nat × Nat)}
    {g : TileMap}
    (hok : set_bombs (TileMap.empty w h) count shuffled = Except.ok g)
    (x y : Nat) :
    bomb_tally g x y = memTally w h x y (shuffled.take count) := by
  obtain ⟨hc, hg⟩ := set_bombs_eq_ok.mp hok
  have hwg : g.width = w := by rw [hg]; rfl
  have hhg : g.height = h := by rw [hg]; rfl
  rw [bomb_tally, memTally, hwg, hhg]
  refine List.countP_congr ?_
  intro c hcmem
  obtain ⟨hc1, hc2⟩ := mem_neighbor_coordinates_bounds hcmem
  rw [tileAt_generated hok hc1 hc2]
  by_cases hmem : (c.1, c.2) ∈ shuffled.take count
  · simp [hmem]
  · rw [if_neg hmem]
    split_ifs with h0 <;> simp [hmem]

theorem memTally_le_eight (w h x y : Nat) (B : List (Nat × Nat)) :
    memTally w h x y B ≤ 8 :=
  (List.countP_le_length _).trans (length_neighbor_coordinates_le w h x y)

theorem tileAt_mkGrid_oob {w h x y : Nat} (f : Nat → Nat → Tile)
    (hxy : ¬(x < w ∧ y < h)) :
    tileAt ⟨w, h, mkGrid w h f⟩ x y = Tile.Empty := by
  rw [tileAt]
  rw [show (TileMap.mk w h (mkGrid w h f)).map = mkGrid w h f from rfl]
  by_cases hy : y < h
  · have hx : w ≤ x := Nat.le_of_not_lt fun hx => hxy ⟨hx, hy⟩
    have hrow : (mkGrid w h f).getD y [] = (List.range w).map fun x => f x y := by
      simp [mkGrid, List.getD_eq_getElem?_getD, List.getElem?_map, List.getElem?_range, hy]
    rw [hrow, List.getD_eq_getElem?_getD, List.getElem?_eq_none (by simpa using hx)]
    rfl
  · have hyy : h ≤ y := Nat.le_of_not_lt hy
    have hrow : (mkGrid w h f).getD y [] = [] := by
      rw [List.getD_eq_getElem?_getD, List.getElem?_eq_none (by simpa [mkGrid] using hyy)]
      rfl
    rw [hrow]
    rfl

theorem tileAt_generated_oob {w h count : Nat} {shuffled : List (Nat × Nat)}
    {g : TileMap}
    (hok : set_bombs (TileMap.empty w h) count shuffled = Except.ok g)
    {x y : Nat} (hxy : ¬(x < w ∧ y < h)) :
    tileAt g x y = Tile.Empty := by
  obtain ⟨hc, hg⟩ := set_bombs_eq_ok.mp hok
  rw [hg]
  exact tileAt_mkGrid_oob _ hxy

/-- C1: for every `w × h` grid and every `bomb_count ≤ w*h`, whatever
shuffled enumeration of the coordinate space the random source produced,
`set_bombs(bomb_count)` succeeds and the number of cells marked as mines
across the whole grid is exactly `bomb_count`; moreover the selected
cells are `bomb_count` distinct coordinates. -/
theorem set_bombs_mine_count {w h count : Nat} {shuffled : List (Nat × Nat)}
    (hperm : shuffled.Perm (allCoords w h)) (hcount : count ≤ w * h) :
    Except.map bombCount (set_bombs (TileMap.empty w h) count shuffled) =
      Except.ok count ∧
    (shuffled.take count).Nodup ∧ (shuffled.take count).length = count := by
  have hok : set_bombs (TileMap.empty w h) count shuffled =
      Except.ok (set_neighbors (place_bombs (TileMap.empty w h)
        (shuffled.take count))) :=
    set_bombs_eq_ok.mpr ⟨hcount, rfl⟩
  refine ⟨?_, ?_, ?_⟩
  · rw [hok]
    exact congrArg Except.ok (bombCount_generated hok hperm)
  · exact (List.take_sublist count shuffled).nodup
      ((hperm.nodup_iff).mpr (nodup_allCoords w h))
  · rw [List.length_take, hperm.length_eq, length_allCoords]
    exact Nat.min_eq_left hcount

theorem set_bombs_mine_count_witness :
    Except.map bombCount (set_bombs (TileMap.empty 2 2) 2
      [(1, 1), (0, 0), (1, 0), (0, 1)]) = Except.ok 2 :=
  (set_bombs_mine_count (by decide) (by decide)).1

/-- C2: in every generated grid, each in-bounds cell is exactly one of
`Empty`, `Bomb` ("Mine"), or `BombNeighbor n` ("MineNeighbor") with
`1 ≤ n ≤ 8`; a cell is `BombNeighbor n` iff it is not a bomb and its
live neighbor-mine tally equals `n ≥ 1`; a non-bomb cell with zero
tally is `Empty`. -/
theorem generated_cell_invariant {w h count : Nat} {shuffled : List (Nat × Nat)}
    {g : TileMap}
    (hok : set_bombs (TileMap.empty w h) count shuffled = Except.ok g)
    {x y : Nat} (hx : x < w) (hy : y < h) :
    (∀ n, tileAt g x y = Tile.BombNeighbor n ↔
      (tileAt g x y ≠ Tile.Bomb ∧ bomb_tally g x y = n ∧ 1 ≤ n)) ∧
    (tileAt g x y ≠ Tile.Bomb → bomb_tally g x y = 0 →
      tileAt g x y = Tile.Empty) ∧
    (∀ n, tileAt g x y = Tile.BombNeighbor n → 1 ≤ n ∧ n ≤ 8) := by
  have htile := tileAt_generated hok hx hy
  have htally := bomb_tally_generated hok x y
  set B := shuffled.take count with hB
  set T := memTally w h x y B with hT
  by_cases hmem : (x, y) ∈ B
  · rw [if_pos hmem] at htile
    refine ⟨?_, ?_, ?_⟩
    · intro n
      rw [htile]
      simp
    · intro hnb
      exact absurd htile hnb
    · intro n hn
      rw [htile] at hn
      exact absurd hn (by simp)
  · rw [if_neg hmem] at htile
    by_cases h0 : T = 0
    · rw [if_pos h0] at htile
      refine ⟨?_, ?_, ?_⟩
      · intro n
        rw [htile, htally, h0]
        constructor
        · intro hc
          exact absurd hc (by simp)
        · rintro ⟨-, rfl, hn1⟩
          omega
      · intro _ _
        exact htile
      · intro n hn
        rw [htile] at hn
        exact absurd hn (by simp)
    · rw [if_neg h0] at htile
      have hT8 : T ≤ 8 := memTally_le_eight w h x y B
      refine ⟨?_, ?_, ?_⟩
      · intro n
        rw [htile, htally]
        constructor
        · intro hc
          injection hc with hc
          exact ⟨by simp, hc.symm ▸ rfl, by omega⟩
        · rintro ⟨-, rfl, -⟩
          rfl
      · intro _ habs
        rw [htally] at habs
        exact absurd habs h0
      · intro n hn
        rw [htile] at hn
        injection hn with hn
        omega

theorem generated_cell_invariant_witness :
    tileAt ⟨2, 2, [[Tile.Bomb, Tile.BombNeighbor 1],
      [Tile.BombNeighbor 1, Tile.BombNeighbor 1]]⟩ 1 0 = Tile.BombNeighbor 1 := by
  have hok : set_bombs (TileMap.empty 2 2) 1 (allCoords 2 2) =
      Except.ok ⟨2, 2, [[Tile.Bomb, Tile.BombNeighbor 1],
        [Tile.BombNeighbor 1, Tile.BombNeighbor 1]]⟩ := by decide
  exact ((generated_cell_invariant hok (by decide) (by decide)).1 1).mpr
    ⟨by decide, by decide, by decide⟩

/-- C3: for every in-bounds cell of a grid with `width, height ≥ 2`,
`neighbor_coordinates` returns only in-bounds coordinates, never the
queried cell itself, and at most 8 results: exactly 8 for interior
cells, exactly 5 for edge (non-corner) cells, exactly 3 for corners. -/
theorem neighbor_coordinates_spec {w h x y : Nat} (hw : 2 ≤ w) (hh : 2 ≤ h)
    (hx : x < w) (hy : y < h) :
    (∀ c ∈ neighbor_coordinates w h x y, c.1 < w ∧ c.2 < h) ∧
    (x, y) ∉ neighbor_coordinates w h x y ∧
    (neighbor_coordinates w h x y).length ≤ 8 ∧
    (0 < x → x + 1 < w → 0 < y → y + 1 < h →
      (neighbor_coordinates w h x y).length = 8) ∧
    ((((x = 0 ∨ x + 1 = w) ∧ 0 < y ∧ y + 1 < h) ∨
        ((y = 0 ∨ y + 1 = h) ∧ 0 < x ∧ x + 1 < w)) →
      (neighbor_coordinates w h x y).length = 5) ∧
    (((x = 0 ∨ x + 1 = w) ∧ (y = 0 ∨ y + 1 = h)) →
      (neighbor_coordinates w h x y).length = 3) := by
  refine ⟨fun c hc => mem_neighbor_coordinates_bounds hc,
    self_not_mem_neighbor_coordinates w h x y,
    length_neighbor_coordinates_le w h x y, ?_, ?_, ?_⟩
  · intro h1 h2 h3 h4
    rw [length_neighbor_coordinates hx hy]
    rw [if_pos h1, if_pos h2, if_pos h3, if_pos h4]
  · intro hcase
    rw [length_neighbor_coordinates hx hy]
    split_ifs <;> omega
  · intro hcase
    rw [length_neighbor_coordinates hx hy]
    split_ifs <;> omega

theorem neighbor_coordinates_spec_witness :
    (neighbor_coordinates 3 3 1 1).length = 8 :=
  (neighbor_coordinates_spec (by decide) (by decide) (by decide)
      (by decide)).2.2.2.1 (by decide) (by decide) (by decide) (by decide)

/-- C4: `set_bombs(count)` validates `0 ≤ count ≤ width*height` (the
lower bound is inherent in the type) before any sampling and fails with
`InvalidBombCount` when the bound is violated; in that case nothing but
the error is produced (generation is all-or-nothing), and otherwise the
fully generated grid is returned. -/
theorem set_bombs_validates {tm : TileMap} {count : Nat}
    {shuffled : List (Nat × Nat)} :
    (count ≤ tm.width * tm.height →
      set_bombs tm count shuffled =
        Except.ok (set_neighbors (place_bombs tm (shuffled.take count)))) ∧
    (tm.width * tm.height < count →
      set_bombs tm count shuffled =
        Except.error TileMapError.InvalidBombCount) := by
  constructor
  · intro hc
    exact set_bombs_eq_ok.mpr ⟨hc, rfl⟩
  · intro hc
    rw [set_bombs, if_neg (by omega)]

theorem set_bombs_validates_witness :
    set_bombs (TileMap.empty 2 2) 5 [] =
      Except.error TileMapError.InvalidBombCount :=
  (set_bombs_validates).2 (by decide)

/-- C5: with `bomb_count = 0` the generated grid is all `Empty`; with
`bomb_count = width*height` every in-bounds cell is a bomb; in neither
extreme does any `BombNeighbor` cell occur anywhere in the grid. -/
theorem set_bombs_extremes {w h : Nat} {shuffled : List (Nat × Nat)}
    (hperm : shuffled.Perm (allCoords w h)) :
    (∀ g, set_bombs (TileMap.empty w h) 0 shuffled = Except.ok g →
      ∀ x y, tileAt g x y = Tile.Empty) ∧
    (∀ g, set_bombs (TileMap.empty w h) (w * h) shuffled = Except.ok g →
      (∀ x y, x < w → y < h → tileAt g x y = Tile.Bomb) ∧
      (∀ x y n, tileAt g x y ≠ Tile.BombNeighbor n)) := by
  constructor
  · intro g hok x y
    by_cases hxy : x < w ∧ y < h
    · rw [tileAt_generated hok hxy.1 hxy.2]
      simp [memTally]
    · exact tileAt_generated_oob hok hxy
  · intro g hok
    have htake : shuffled.take (w * h) = shuffled :=
      List.take_of_length_le (by rw [hperm.length_eq, length_allCoords])
    have hbomb : ∀ x y, x < w → y < h → tileAt g x y = Tile.Bomb := by
      intro x y hx hy
      rw [tileAt_generated hok hx hy, htake,
        if_pos ((hperm.mem_iff).mpr (mem_allCoords.mpr ⟨hx, hy⟩))]
    refine ⟨hbomb, ?_⟩
    intro x y n
    by_cases hxy : x < w ∧ y < h
    · rw [hbomb x y hxy.1 hxy.2]
      simp
    · rw [tileAt_generated_oob hok hxy]
      simp

theorem set_bombs_extremes_witness :
    tileAt ⟨2, 2, [[Tile.Empty, Tile.Empty], [Tile.Empty, Tile.Empty]]⟩ 1 1 =
        Tile.Empty ∧
    tileAt ⟨2, 2, [[Tile.Bomb, Tile.Bomb], [Tile.Bomb, Tile.Bomb]]⟩ 1 1 =
        Tile.Bomb := by
  constructor
  · exact (set_bombs_extremes
      (by decide : (allCoords 2 2).Perm (allCoords 2 2))).1 _ (by decide) 1 1
  · exact ((set_bombs_extremes
      (by decide : (allCoords 2 2).Perm (allCoords 2 2))).2 _ (by decide)).1
      1 1 (by decide) (by decide)

theorem adaptative_tile_size_eq_clamp (win : WindowDescriptor) (lo hi : ℚ)
    (gw gh : Nat) (hlohi : lo ≤ hi) :
    adaptative_tile_size win (lo, hi) (gw, gh) =
      some (max lo (min (min (win.width / (gw : ℚ)) (win.height / (gh : ℚ))) hi)) := by
  rw [adaptative_tile_size, f32clamp]
  rw [if_pos hlohi]
  congr 1
  set x := min (win.width / (gw : ℚ)) (win.height / (gh : ℚ)) with hx
  rcases lt_or_le x lo with hlt | hge
  · rw [if_pos hlt, max_eq_left (min_le_of_left_le hlt.le)]
  · rw [if_neg (not_lt.mpr hge)]
    rcases lt_or_le hi x with hgt | hle
    · rw [if_pos hgt, min_eq_right hgt.le, max_eq_right hlohi]
    · rw [if_neg (not_lt.mpr hle), min_eq_left hle, max_eq_right hge]

/-- C6: under `Adaptive(min, max)` with `min ≤ max`, the computed tile
size is `clamp(min(viewport.width/grid.width, viewport.height/grid.height),
min, max)`; in particular viewport `(700, 800)`, grid `(20, 20)` and
`Adaptive(10, 50)` give tile size `35` and board size `(700, 700)`. -/
theorem adaptative_tile_size_clamp :
    (∀ (win : WindowDescriptor) (lo hi : ℚ) (gw gh : Nat), lo ≤ hi →
      adaptative_tile_size win (lo, hi) (gw, gh) =
        some (max lo (min (min (win.width / (gw : ℚ)) (win.height / (gh : ℚ))) hi))) ∧
    adaptative_tile_size ⟨700, 800⟩ (10, 50) (20, 20) = some 35 ∧
    board_size 20 20 35 = (700, 700) := by
  refine ⟨?_, ?_, ?_⟩
  · intro win lo hi gw gh hlohi
    exact adaptative_tile_size_eq_clamp win lo hi gw gh hlohi
  · norm_num [adaptative_tile_size, f32clamp]
  · norm_num [board_size]

theorem adaptative_tile_size_clamp_witness :
    adaptative_tile_size ⟨600, 600⟩ (1, 2) (100, 100) = some 2 :=
  (adaptative_tile_size_clamp.1 ⟨600, 600⟩ 1 2 100 100 (by norm_num)).trans
    (by norm_num)

/-- C7: the board anchor is `(-board_size.x/2, -board_size.y/2) + offset`
under `Centered(offset)`, exactly `p` under `Custom(p)`, and exactly
`(-board_size.x/2, -board_size.y/2)` under `Centered` with zero offset. -/
theorem board_position_spec :
    (∀ (bs : ℚ × ℚ) (offset : Vec3),
      board_position bs (BoardPosition.Centered offset) =
        (-(bs.1 / 2), -(bs.2 / 2), (0 : ℚ)) + offset) ∧
    (∀ (bs : ℚ × ℚ) (p : Vec3), board_position bs (BoardPosition.Custom p) = p) ∧
    (∀ bs : ℚ × ℚ, board_position bs (BoardPosition.Centered 0) =
      (-(bs.1 / 2), -(bs.2 / 2), (0 : ℚ))) := by
  refine ⟨fun bs offset => rfl, fun bs p => rfl, fun bs => ?_⟩
  rw [board_position]
  exact add_zero _

/-- C9: the layout computation is a pure function of its inputs —
identical inputs always produce identical outputs. -/
theorem compute_layout_pure {win1 win2 : WindowDescriptor}
    {o1 o2 : BoardOptions} {w1 w2 h1 h2 : Nat}
    (hwin : win1 = win2) (ho : o1 = o2) (hw : w1 = w2) (hh : h1 = h2) :
    compute_layout win1 o1 w1 h1 = compute_layout win2 o2 w2 h2 := by
  rw [hwin, ho, hw, hh]

theorem compute_layout_pure_witness :
    compute_layout ⟨700, 800⟩
        ⟨(20, 20), 40, TileSize.Adaptive 10 50, 0, BoardPosition.Centered 0⟩ 20 20 =
      compute_layout ⟨700, 800⟩
        ⟨(20, 20), 40, TileSize.Adaptive 10 50, 0, BoardPosition.Centered 0⟩ 20 20 :=
  compute_layout_pure rfl rfl rfl rfl

/-- C10: `adaptative_tile_size` requires `min ≤ max` — with `min > max`
the underlying clamp panics (modelled as `none`); under the
precondition, for positive grid dimensions the returned tile size lies
in `[min, max]`. -/
theorem adaptative_tile_size_bounds :
    (∀ (win : WindowDescriptor) (lo hi : ℚ) (gw gh : Nat), hi < lo →
      adaptative_tile_size win (lo, hi) (gw, gh) = none) ∧
    (∀ (win : WindowDescriptor) (lo hi : ℚ) (gw gh : Nat), lo ≤ hi →
      0 < gw → 0 < gh →
      ∃ v, adaptative_tile_size win (lo, hi) (gw, gh) = some v ∧
        lo ≤ v ∧ v ≤ hi) := by
  constructor
  · intro win lo hi gw gh hlt
    rw [adaptative_tile_size, f32clamp, if_neg (not_le.mpr hlt)]
  · intro win lo hi gw gh hle hgw hgh
    refine ⟨_, adaptative_tile_size_eq_clamp win lo hi gw gh hle, ?_, ?_⟩
    · exact le_max_left lo _
    · exact max_le hle (min_le_right _ hi)

theorem adaptative_tile_size_bounds_witness :
    adaptative_tile_size ⟨100, 100⟩ (50, 10) (5, 5) = none :=
  adaptative_tile_size_bounds.1 ⟨100, 100⟩ 50 10 5 5 (by norm_num)

/-- C8: with no viewport descriptor available, `create_board` still
performs grid creation and mine placement (generation succeeds under a
valid bomb count) and the layout computation is skipped entirely: the
tile map is exactly the `set_bombs` result and the layout slot is empty. -/
theorem create_board_no_window {opts : BoardOptions}
    {shuffled : List (Nat × Nat)}
    (hcount : opts.bomb_count ≤ opts.map_size.1 * opts.map_size.2) :
    (set_bombs (TileMap.empty opts.map_size.1 opts.map_size.2)
        opts.bomb_count shuffled).isOk = true ∧
    create_board opts none shuffled =
      Except.map (fun tm => (tm, (none : Option (Option BoardLayout))))
        (set_bombs (TileMap.empty opts.map_size.1 opts.map_size.2)
          opts.bomb_count shuffled) := by
  have hok : set_bombs (TileMap.empty opts.map_size.1 opts.map_size.2)
      opts.bomb_count shuffled =
      Except.ok (set_neighbors (place_bombs
        (TileMap.empty opts.map_size.1 opts.map_size.2)
        (shuffled.take opts.bomb_count))) :=
    set_bombs_eq_ok.mpr ⟨hcount, rfl⟩
  rw [create_board, hok]
  exact ⟨rfl, rfl⟩

theorem create_board_no_window_witness :
    create_board
        ⟨(2, 2), 1, TileSize.Fixed 30, 0, BoardPosition.Custom (0, 0, 0)⟩
        none (allCoords 2 2) =
      Except.ok (⟨2, 2, [[Tile.Bomb, Tile.BombNeighbor 1],
        [Tile.BombNeighbor 1, Tile.BombNeighbor 1]]⟩, none) :=
  (create_board_no_window (by decide)).2.trans (by decide)
